import Mathlib

/-!
Shallow embedding of the Farcoin server (Farcoin-xyz/server).

The repository contains near-duplicate revisions of the same Express
service: `src/index.js` (which itself holds two revisions, the first with
a `/sign` route and the second with a `/mint` route) and the older
revision `src/unnamed/part_000`.  Definitions suffixed `Old` embed the
`part_000` revision where it differs from `src/index.js`.

External collaborators (Neynar API, Farcaster hub, chain RPC, signer
services, ethers signing) are modelled as data passed in: a scan receives
the list of pages the feed would return, the `/mint` handler receives the
per-signer outcomes of the `axios` calls, and cryptographic signatures
are opaque strings.  JS timestamps parsed with
`Math.floor(new Date(ts).getTime() / 1000)` are modelled as the resulting
seconds value (`timestampSec`).
-/

namespace Farcoin

/-! ### Association lists modelling JS objects with integer keys -/

/-- Lookup in a JS-object-like association list (`obj[k]`, `undefined` as
`none`). -/
def alookup {α : Type} (l : List (Nat × α)) (k : Nat) : Option α :=
  match l with
  | [] => none
  | (k', v) :: rest => if k' = k then some v else alookup rest k

/-- Numeric read of a JS object field: `obj[k] || 0` (both `undefined`
and `0` are falsy, and read as `0` in the arithmetic below). -/
def aget (l : List (Nat × Nat)) (k : Nat) : Nat :=
  (alookup l k).getD 0

/-- Assignment `obj[k] = v`: replace in place if the key is present,
otherwise add the key. -/
def aset {α : Type} (l : List (Nat × α)) (k : Nat) (v : α) : List (Nat × α) :=
  match l with
  | [] => [(k, v)]
  | (k', v') :: rest => if k' = k then (k, v) :: rest else (k', v') :: aset rest k v

/-- Key list of a JS-object-like association list. -/
def keysOf {α : Type} (l : List (Nat × α)) : List Nat :=
  l.map Prod.fst

/-! ### Data model of the reaction aggregation (`getReactionsToUser`) -/

/-- One entry of `notifications[i].reactors` as destructured by the code:
`{ fid, username, timestamp }`, with the timestamp already converted to
epoch seconds. -/
structure Reactor where
  fid : Nat
  username : String
  timestampSec : Nat
deriving Repr, DecidableEq

/-- One entry of `notifications` as destructured by the code:
`{ reactors, reactionType }`. -/
structure Notification where
  reactionType : String
  reactors : List Reactor
deriving Repr, DecidableEq

/-- One page returned by `client.fetchUserLikesAndRecasts`; `hasNext`
models the truthiness of `next.cursor`. -/
structure Page where
  notifications : List Notification
  hasNext : Bool
deriving Repr, DecidableEq

/-- The accumulator object built by `getReactionsToUser` (the `FIDs`
array is filled in later by the `/scan` handler). -/
structure ScanResult where
  count : Nat
  fidLikes : List (Nat × Nat)
  fidNames : List (Nat × String)
  fidLastLikeTime : List (Nat × Nat)
deriving Repr, DecidableEq

/-- The `result` object as initialized by the `/scan` handler. -/
def emptyScan : ScanResult := ⟨0, [], [], []⟩

/-- Body of the inner reactor loop of `getReactionsToUser` in
`src/index.js` (lines 149-161): on first sighting create the tally, else
increment it; in both cases raise `fidLastLikeTime[fid]` with `Math.max`. -/
def recordReactor (s : ScanResult) (r : Reactor) : ScanResult :=
  let s1 :=
    if aget s.fidLikes r.fid = 0 then
      { s with
        count := s.count + 1,
        fidNames := aset s.fidNames r.fid r.username,
        fidLikes := aset s.fidLikes r.fid 1 }
    else
      { s with fidLikes := aset s.fidLikes r.fid (aget s.fidLikes r.fid + 1) }
  { s1 with
    fidLastLikeTime :=
      aset s1.fidLastLikeTime r.fid (max (aget s1.fidLastLikeTime r.fid) r.timestampSec) }

/-- Body of the same loop in the `src/unnamed/part_000` revision
(lines 149-158): `fidLastLikeTime[fid]` is set only on the first
sighting, and is left untouched on later sightings. -/
def recordReactorOld (s : ScanResult) (r : Reactor) : ScanResult :=
  if aget s.fidLikes r.fid = 0 then
    { s with
      count := s.count + 1,
      fidNames := aset s.fidNames r.fid r.username,
      fidLikes := aset s.fidLikes r.fid 1,
      fidLastLikeTime := aset s.fidLastLikeTime r.fid r.timestampSec }
  else
    { s with fidLikes := aset s.fidLikes r.fid (aget s.fidLikes r.fid + 1) }

/-- The `for (let j ...)` reactor loop: after recording each reactor the
code checks `result.count >= maxResults` and on success sets
`cutoff = true` and `break`s out of this inner loop only. -/
def processReactors (maxResults : Nat) (s : ScanResult) : List Reactor → ScanResult × Bool
  | [] => (s, false)
  | r :: rest =>
    let s' := recordReactor s r
    if maxResults ≤ s'.count then (s', true)
    else processReactors maxResults s' rest

/-- The `for (let i ...)` notification loop: only notifications with
`reactionType === 'like'` are processed; the `cutoff` flag persists
across iterations but is never consulted by this loop, so iteration
continues past the notification that set it. -/
def processNotifs (maxResults : Nat) : List Notification → ScanResult → Bool → ScanResult × Bool
  | [], s, cutoff => (s, cutoff)
  | n :: rest, s, cutoff =>
    if n.reactionType = "like" then
      let p := processReactors maxResults s n.reactors
      processNotifs maxResults rest p.1 (cutoff || p.2)
    else
      processNotifs maxResults rest s cutoff

/-- `getReactionsToUser` from `src/index.js` (lines 138-174).  The feed
argument lists the successive pages the external fetch would return (an
exhausted feed yields an empty page with no cursor).  The second
component counts the page fetches performed.  The recursion stops when
`!next.cursor || cutoff || depth == 4`. -/
def getReactionsToUser (maxResults : Nat) : List Page → ScanResult → Nat → ScanResult × Nat
  | [], s, _ =>
    ((processNotifs maxResults [] s false).1, 1)
  | page :: rest, s, depth =>
    let p := processNotifs maxResults page.notifications s false
    if !page.hasNext || p.2 || depth == 4 then (p.1, 1)
    else
      let q := getReactionsToUser maxResults rest p.1 (depth + 1)
      (q.1, q.2 + 1)

/-- The reactor loop of the `src/unnamed/part_000` revision: identical
shape, with its `recordReactorOld` body. -/
def processReactorsOld (maxResults : Nat) (s : ScanResult) : List Reactor → ScanResult × Bool
  | [] => (s, false)
  | r :: rest =>
    let s' := recordReactorOld s r
    if maxResults ≤ s'.count then (s', true)
    else processReactorsOld maxResults s' rest

/-- The notification loop of the `src/unnamed/part_000` revision. -/
def processNotifsOld (maxResults : Nat) : List Notification → ScanResult → Bool → ScanResult × Bool
  | [], s, cutoff => (s, cutoff)
  | n :: rest, s, cutoff =>
    if n.reactionType = "like" then
      let p := processReactorsOld maxResults s n.reactors
      processNotifsOld maxResults rest p.1 (cutoff || p.2)
    else
      processNotifsOld maxResults rest s cutoff

/-- The like-type reaction events a notification list carries, in
iteration order. -/
def likeReactors : List Notification → List Reactor
  | [] => []
  | n :: rest => (if n.reactionType = "like" then n.reactors else []) ++ likeReactors rest

/-- Number of like-type notifications in a list. -/
def likeCount (ns : List Notification) : Nat :=
  (ns.filter (fun n => decide (n.reactionType = "like"))).length

/-- Largest number of like-type notifications on any single page of a
feed. -/
def maxLikeNotifs : List Page → Nat
  | [] => 0
  | p :: rest => max (likeCount p.notifications) (maxLikeNotifs rest)

/-! ### The `/scan` handler's FIDs ordering -/

/-- `result.fidLastLikeTime[fid]` as read by the sort comparator
(`undefined` compares as `0`, a case the handler never hits). -/
def timeOf (s : ScanResult) (fid : Nat) : Nat :=
  aget s.fidLastLikeTime fid

/-- Ordered insertion into an ascending list of keys. -/
def insertAsc (a : Nat) : List Nat → List Nat
  | [] => [a]
  | b :: rest => if a ≤ b then a :: b :: rest else b :: insertAsc a rest

/-- `Object.keys(result.fidLikes)` for an integer-keyed JS object: the
keys in ascending numeric order (modelled by insertion sort). -/
def objKeys {α : Type} (l : List (Nat × α)) : List Nat :=
  (keysOf l).foldr insertAsc []

/-- Ordered insertion placing `a` before the first element with a
strictly smaller `fidLastLikeTime`, i.e. exactly where the comparator
`time[a] > time[b] ? -1 : 1` orders it. -/
def insertByTime (times : List (Nat × Nat)) (a : Nat) : List Nat → List Nat
  | [] => [a]
  | b :: rest =>
    if aget times b < aget times a then a :: b :: rest
    else b :: insertByTime times a rest

/-- `Object.keys(result.fidLikes).sort((a, b) => time[a] > time[b] ? -1 : 1)`
from the `/scan` handler (lines 286-289): a deterministic sort that puts
newest first.  The engine's sort with this comparator (which never
returns 0) is modelled by a deterministic insertion sort driven by the
comparator's strict relation; tie order is implementation-defined in the
engine and deterministic here. -/
def sortFIDs (likes times : List (Nat × Nat)) : List Nat :=
  (objKeys likes).foldr (insertByTime times) []

/-- The `FIDs` list the `/scan` handler stores into `result.FIDs`. -/
def scanFIDs (s : ScanResult) : List Nat :=
  sortFIDs s.fidLikes s.fidLastLikeTime

/-- The `/scan` handler's aggregation core: `maxResults = 1000`, initial
cursor `null`, initial depth `1`, then the newest-first `FIDs` list. -/
def scanHandler (feed : List Page) : ScanResult × List Nat :=
  let s := (getReactionsToUser 1000 feed emptyScan 1).1
  (s, scanFIDs s)

end Farcoin

namespace Farcoin

/-! ### The `/sign` hub scan and mint-argument builder -/

/-- `frcEpoch` from the `/sign` handler: hub timestamps count from this
epoch and are shifted by it before comparison with the range close. -/
def frcEpoch : Nat := 1609459200

/-- `messages[i].data` as destructured by the `/sign` loop: the hub
timestamp and `reactionBody.targetCastId.fid`.  All fetched messages are
likes (the request filters on `ReactionType.LIKE`). -/
structure HubMessage where
  timestamp : Nat
  targetFid : Nat
deriving Repr, DecidableEq

/-- The `startTime` / `endTime` / `numTokens` accumulator of the `/sign`
loop; `none` models the initial JS `null`. -/
structure SignAcc where
  startTime : Option Nat
  endTime : Option Nat
  numTokens : Nat
deriving Repr, DecidableEq

/-- Initial accumulator: `startTime = null`, `endTime = null`,
`numTokens = 0`. -/
def initSignAcc : SignAcc := ⟨none, none, 0⟩

/-- The accumulator update:
`endTime = Math.max(endTime || 0, t)`,
`startTime = Math.min(startTime || Infinity, t)`, `numTokens++`.
Both `null` and `0` are falsy, so `startTime || Infinity` yields `t`
exactly when the stored value reads as `0`. -/
def bumpAcc (acc : SignAcc) (t : Nat) : SignAcc :=
  { startTime := some (if acc.startTime.getD 0 = 0 then t else min (acc.startTime.getD 0) t),
    endTime := some (max (acc.endTime.getD 0) t),
    numTokens := acc.numTokens + 1 }

/-- The window predicate of `src/index.js` line 224:
`fid === liked.fid && t > rangeClose` with `t = timestamp + frcEpoch`. -/
def attributable (likedFid rangeClose : Nat) (m : HubMessage) : Bool :=
  m.targetFid == likedFid && decide (rangeClose < m.timestamp + frcEpoch)

/-- One message step of the `/sign` loop in `src/index.js`
(lines 213-229): an attributable like bumps the accumulator, anything
else is skipped. -/
def signStep (likedFid rangeClose : Nat) (acc : SignAcc) (m : HubMessage) : SignAcc :=
  if attributable likedFid rangeClose m then bumpAcc acc (m.timestamp + frcEpoch) else acc

/-- One fetched page of the `/sign` loop in `src/index.js`. -/
def signScanPage (likedFid rangeClose : Nat) (acc : SignAcc) (msgs : List HubMessage) : SignAcc :=
  msgs.foldl (signStep likedFid rangeClose) acc

/-- The whole `while (isNextPage)` pagination of `src/index.js`: the feed
argument lists the successive `getReactionsByFid` pages. -/
def signScan (likedFid rangeClose : Nat) (pages : List (List HubMessage)) : SignAcc :=
  pages.foldl (signScanPage likedFid rangeClose) initSignAcc

/-- One fetched page in the `src/unnamed/part_000` revision
(lines 209-228): `if (t <= rangeClose) break;` leaves the message loop as
soon as one stale message is met, before the fid test. -/
def signScanPageOld (likedFid rangeClose : Nat) : SignAcc → List HubMessage → SignAcc
  | acc, [] => acc
  | acc, m :: rest =>
    if m.timestamp + frcEpoch ≤ rangeClose then acc
    else
      signScanPageOld likedFid rangeClose
        (if m.targetFid == likedFid then bumpAcc acc (m.timestamp + frcEpoch) else acc) rest

/-- The `part_000` pagination: the per-page break does not stop the outer
`while` loop, so every page is still visited. -/
def signScanOld (likedFid rangeClose : Nat) (pages : List (List HubMessage)) : SignAcc :=
  pages.foldl (signScanPageOld likedFid rangeClose) initSignAcc

/-- The adjusted timestamps of the attributable reactions of a feed, in
feed order. -/
def attTimes (likedFid rangeClose : Nat) (pages : List (List HubMessage)) : List Nat :=
  (pages.flatten.filter (attributable likedFid rangeClose)).map
    (fun m => m.timestamp + frcEpoch)

/-- One positional element of the `mintArguments` array. -/
inductive MintArg where
  | addr (a : String)
  | num (n : Nat)
  | nums (l : List Nat)
  | optNums (l : List (Option Nat))
  | sigs (l : List String)
deriving Repr, DecidableEq

/-- The `/sign` handler's mint-argument construction in `src/index.js`
(lines 234-251): throw `"No tokens to mint"` when `numTokens === 0`,
otherwise build the positional tuple and append the signature list.  The
ethers signing of the ABI-encoded tuple is external and passed in as the
opaque `signature`. -/
def signHandler (likedAddress : String) (likedFid likerFid rangeClose : Nat)
    (pages : List (List HubMessage)) (signature : String) : Except String (List MintArg) :=
  let acc := signScan likedFid rangeClose pages
  if acc.numTokens = 0 then
    Except.error "No tokens to mint"
  else
    Except.ok
      [ MintArg.addr likedAddress, MintArg.num likedFid, MintArg.nums [likerFid],
        MintArg.nums [acc.numTokens], MintArg.optNums [acc.startTime],
        MintArg.optNums [acc.endTime], MintArg.sigs [signature] ]

/-- The `src/unnamed/part_000` revision of the same construction
(lines 234-248): there is no `numTokens === 0` check, the tuple is built
unconditionally. -/
def signHandlerOld (likedAddress : String) (likedFid likerFid rangeClose : Nat)
    (pages : List (List HubMessage)) (signature : String) : List MintArg :=
  let acc := signScanOld likedFid rangeClose pages
  [ MintArg.addr likedAddress, MintArg.num likedFid, MintArg.nums [likerFid],
    MintArg.nums [acc.numTokens], MintArg.optNums [acc.startTime],
    MintArg.optNums [acc.endTime], MintArg.sigs [signature] ]

/-! ### The `/mint` multi-signer fan-out -/

/-- `response.data.result` of one signer call: the echoed arguments and
the signature. -/
structure SignerResult where
  arguments : List MintArg
  signature : String
deriving Repr, DecidableEq

/-- `Promise.all` over the per-signer outcomes: any rejection rejects the
whole batch, otherwise all results are collected in signer order. -/
def promiseAll : List (Except String SignerResult) → Except String (List SignerResult)
  | [] => Except.ok []
  | Except.error e :: _ => Except.error e
  | Except.ok v :: rest => (promiseAll rest).map (fun l => v :: l)

/-- The `/mint` handler of `src/index.js` (lines 485-509): fan out to the
configured signers, collect `results`, and respond with
`results[0].arguments.concat([signatures])` where
`signatures = results.map(r => r.signature)`.  An empty signer list would
make `results[0]` a `TypeError`, caught by the surrounding `try`. -/
def mintHandler (responses : List (Except String SignerResult)) : Except String (List MintArg) :=
  match promiseAll responses with
  | Except.error e => Except.error e
  | Except.ok [] => Except.error "TypeError: results[0] is undefined"
  | Except.ok (r0 :: rs) =>
    Except.ok (r0.arguments ++ [MintArg.sigs ((r0 :: rs).map (fun r => r.signature))])

end Farcoin

namespace Farcoin

/-! ### Association list lemmas -/

theorem keysOf_cons {α : Type} (a : Nat) (b : α) (l : List (Nat × α)) :
    keysOf ((a, b) :: l) = a :: keysOf l := rfl

theorem alookup_aset_self {α : Type} (l : List (Nat × α)) (k : Nat) (v : α) :
    alookup (aset l k v) k = some v := by
  induction l with
  | nil => simp [aset, alookup]
  | cons kv rest ih =>
    obtain ⟨k', v'⟩ := kv
    by_cases h : k' = k
    · simp [aset, h, alookup]
    · simp [aset, h, alookup, ih]

theorem alookup_aset_ne {α : Type} (l : List (Nat × α)) (k k' : Nat) (v : α) (h : k' ≠ k) :
    alookup (aset l k v) k' = alookup l k' := by
  have hne : ¬ k = k' := fun hh => h hh.symm
  induction l with
  | nil => simp [aset, alookup, hne]
  | cons kv rest ih =>
    obtain ⟨k0, v0⟩ := kv
    by_cases h0 : k0 = k
    · subst h0
      simp [aset, alookup, hne]
    · simp only [aset, if_neg h0, alookup, ih]

theorem alookup_eq_none_iff {α : Type} (l : List (Nat × α)) (k : Nat) :
    alookup l k = none ↔ k ∉ keysOf l := by
  induction l with
  | nil => simp [alookup, keysOf]
  | cons kv rest ih =>
    obtain ⟨k0, v0⟩ := kv
    by_cases h0 : k0 = k
    · subst h0
      simp [alookup, keysOf_cons]
    · rw [keysOf_cons]
      simp only [alookup, if_neg h0, List.mem_cons]
      rw [ih]
      constructor
      · intro hnone hmem
        rcases hmem with h1 | h1
        · exact h0 h1.symm
        · exact hnone h1
      · intro hnot h1
        exact hnot (Or.inr h1)

theorem alookup_mem {α : Type} {l : List (Nat × α)} {k : Nat} {v : α}
    (h : alookup l k = some v) : (k, v) ∈ l := by
  induction l with
  | nil => simp [alookup] at h
  | cons kv rest ih =>
    obtain ⟨k0, v0⟩ := kv
    by_cases h0 : k0 = k
    · subst h0
      rw [alookup, if_pos rfl] at h
      obtain rfl := Option.some.inj h
      exact List.mem_cons_self _ _
    · rw [alookup, if_neg h0] at h
      exact List.mem_cons_of_mem _ (ih h)

theorem mem_keysOf_of_alookup {α : Type} {l : List (Nat × α)} {k : Nat} {v : α}
    (h : alookup l k = some v) : k ∈ keysOf l :=
  List.mem_map_of_mem Prod.fst (alookup_mem h)

theorem keysOf_aset_mem {α : Type} (l : List (Nat × α)) (k : Nat) (v : α)
    (h : k ∈ keysOf l) : keysOf (aset l k v) = keysOf l := by
  induction l with
  | nil => simp [keysOf] at h
  | cons kv rest ih =>
    obtain ⟨k0, v0⟩ := kv
    by_cases h0 : k0 = k
    · subst h0
      simp [aset, keysOf_cons]
    · rw [keysOf_cons, List.mem_cons] at h
      rcases h with h1 | h1
      · exact absurd h1.symm h0
      · simp only [aset, if_neg h0, keysOf_cons, ih h1]

theorem keysOf_aset_not_mem {α : Type} (l : List (Nat × α)) (k : Nat) (v : α)
    (h : k ∉ keysOf l) : keysOf (aset l k v) = keysOf l ++ [k] := by
  induction l with
  | nil => simp [aset, keysOf]
  | cons kv rest ih =>
    obtain ⟨k0, v0⟩ := kv
    rw [keysOf_cons, List.mem_cons] at h
    push_neg at h
    have h0 : ¬ k0 = k := fun hh => h.1 hh.symm
    simp only [aset, if_neg h0, keysOf_cons, ih h.2, List.cons_append]

theorem mem_aset {α : Type} {l : List (Nat × α)} {k : Nat} {v : α} {kv : Nat × α}
    (h : kv ∈ aset l k v) : kv = (k, v) ∨ kv ∈ l := by
  induction l with
  | nil => simpa [aset] using h
  | cons kv0 rest ih =>
    obtain ⟨k0, v0⟩ := kv0
    by_cases h0 : k0 = k
    · rw [aset, if_pos h0] at h
      rcases List.mem_cons.mp h with h1 | h1
      · exact Or.inl h1
      · exact Or.inr (List.mem_cons_of_mem _ h1)
    · rw [aset, if_neg h0] at h
      rcases List.mem_cons.mp h with h1 | h1
      · exact Or.inr (h1 ▸ List.mem_cons_self _ _)
      · rcases ih h1 with h2 | h2
        · exact Or.inl h2
        · exact Or.inr (List.mem_cons_of_mem _ h2)

theorem aget_aset_self (l : List (Nat × Nat)) (k v : Nat) :
    aget (aset l k v) k = v := by
  simp [aget, alookup_aset_self]

theorem aget_aset_ne (l : List (Nat × Nat)) (k k' v : Nat) (h : k' ≠ k) :
    aget (aset l k v) k' = aget l k' := by
  simp [aget, alookup_aset_ne l k k' v h]

theorem length_eq_length_keysOf {α : Type} (l : List (Nat × α)) :
    l.length = (keysOf l).length := by
  simp [keysOf]

end Farcoin

namespace Farcoin

/-! ### Step lemmas for the tally update -/

theorem recordReactor_likes (s : ScanResult) (r : Reactor) (f : Nat) :
    aget (recordReactor s r).fidLikes f =
      if r.fid = f then aget s.fidLikes f + 1 else aget s.fidLikes f := by
  by_cases hf : r.fid = f
  · subst hf
    by_cases h0 : aget s.fidLikes r.fid = 0
    · simp [recordReactor, h0, aget_aset_self]
    · simp [recordReactor, h0, aget_aset_self]
  · have hne : f ≠ r.fid := fun hh => hf hh.symm
    by_cases h0 : aget s.fidLikes r.fid = 0
    · simp [recordReactor, h0, hf, aget_aset_ne _ _ _ _ hne]
    · simp [recordReactor, h0, hf, aget_aset_ne _ _ _ _ hne]

theorem recordReactor_time (s : ScanResult) (r : Reactor) (f : Nat) :
    aget (recordReactor s r).fidLastLikeTime f =
      if r.fid = f then max (aget s.fidLastLikeTime f) r.timestampSec
      else aget s.fidLastLikeTime f := by
  have hlast : ∀ s1 : ScanResult, s1.fidLastLikeTime = s.fidLastLikeTime →
      aget (aset s1.fidLastLikeTime r.fid
        (max (aget s1.fidLastLikeTime r.fid) r.timestampSec)) f =
      (if r.fid = f then max (aget s.fidLastLikeTime f) r.timestampSec
       else aget s.fidLastLikeTime f) := by
    intro s1 h1
    rw [h1]
    by_cases hf : r.fid = f
    · subst hf
      simp [aget_aset_self]
    · have hne : f ≠ r.fid := fun hh => hf hh.symm
      simp [hf, aget_aset_ne _ _ _ _ hne]
  by_cases h0 : aget s.fidLikes r.fid = 0
  · simpa [recordReactor, h0] using hlast _ rfl
  · simpa [recordReactor, h0] using hlast _ rfl

theorem recordReactor_names (s : ScanResult) (r : Reactor) (f : Nat) :
    alookup (recordReactor s r).fidNames f =
      if r.fid = f ∧ aget s.fidLikes r.fid = 0 then some r.username
      else alookup s.fidNames f := by
  by_cases h0 : aget s.fidLikes r.fid = 0
  · by_cases hf : r.fid = f
    · subst hf
      simp [recordReactor, h0, alookup_aset_self]
    · have hne : f ≠ r.fid := fun hh => hf hh.symm
      simp [recordReactor, h0, hf, alookup_aset_ne _ _ _ _ hne]
  · simp [recordReactor, h0]

theorem recordReactor_count (s : ScanResult) (r : Reactor) :
    (recordReactor s r).count =
      if aget s.fidLikes r.fid = 0 then s.count + 1 else s.count := by
  by_cases h0 : aget s.fidLikes r.fid = 0 <;> simp [recordReactor, h0]

theorem recordReactor_count_le (s : ScanResult) (r : Reactor) :
    s.count ≤ (recordReactor s r).count ∧ (recordReactor s r).count ≤ s.count + 1 := by
  rw [recordReactor_count]
  by_cases h0 : aget s.fidLikes r.fid = 0 <;> simp [h0]

theorem recordReactorOld_likes (s : ScanResult) (r : Reactor) (f : Nat) :
    aget (recordReactorOld s r).fidLikes f =
      if r.fid = f then aget s.fidLikes f + 1 else aget s.fidLikes f := by
  by_cases hf : r.fid = f
  · subst hf
    by_cases h0 : aget s.fidLikes r.fid = 0
    · simp [recordReactorOld, h0, aget_aset_self]
    · simp [recordReactorOld, h0, aget_aset_self]
  · have hne : f ≠ r.fid := fun hh => hf hh.symm
    by_cases h0 : aget s.fidLikes r.fid = 0
    · simp [recordReactorOld, h0, hf, aget_aset_ne _ _ _ _ hne]
    · simp [recordReactorOld, h0, hf, aget_aset_ne _ _ _ _ hne]

theorem recordReactorOld_time (s : ScanResult) (r : Reactor) (f : Nat) :
    aget (recordReactorOld s r).fidLastLikeTime f =
      if r.fid = f ∧ aget s.fidLikes r.fid = 0 then r.timestampSec
      else aget s.fidLastLikeTime f := by
  by_cases h0 : aget s.fidLikes r.fid = 0
  · by_cases hf : r.fid = f
    · subst hf
      simp [recordReactorOld, h0, aget_aset_self]
    · have hne : f ≠ r.fid := fun hh => hf hh.symm
      simp [recordReactorOld, h0, hf, aget_aset_ne _ _ _ _ hne]
  · simp [recordReactorOld, h0]

theorem recordReactorOld_count_le (s : ScanResult) (r : Reactor) :
    s.count ≤ (recordReactorOld s r).count ∧ (recordReactorOld s r).count ≤ s.count + 1 := by
  by_cases h0 : aget s.fidLikes r.fid = 0 <;> simp [recordReactorOld, h0]

end Farcoin

namespace Farcoin

/-! ### Count and cutoff behaviour of the aggregation loops -/

theorem max_succ_le_succ_max (a b : Nat) : max a (b + 1) ≤ max a b + 1 := by
  rcases Nat.le_total a b with h | h
  · rw [Nat.max_eq_right h, Nat.max_eq_right (Nat.le_succ_of_le h)]
  · rw [Nat.max_eq_left h]
    exact Nat.max_le.mpr ⟨Nat.le_succ a, Nat.succ_le_succ h⟩

theorem processReactors_count_le (M : Nat) (rs : List Reactor) :
    ∀ s : ScanResult, (processReactors M s rs).1.count ≤ max M (s.count + 1) := by
  induction rs with
  | nil =>
    intro s
    exact Nat.le_trans (Nat.le_succ _) (Nat.le_max_right M (s.count + 1))
  | cons r rest ih =>
    intro s
    simp only [processReactors]
    by_cases hM : M ≤ (recordReactor s r).count
    · rw [if_pos hM]
      exact Nat.le_trans (recordReactor_count_le s r).2 (Nat.le_max_right _ _)
    · rw [if_neg hM]
      have h1 : (recordReactor s r).count + 1 ≤ M := Nat.lt_of_not_le hM
      have h2 := ih (recordReactor s r)
      rw [Nat.max_eq_left h1] at h2
      exact Nat.le_trans h2 (Nat.le_max_left _ _)

theorem processReactors_cutoff_false (M : Nat) (rs : List Reactor) :
    ∀ s : ScanResult, s.count < M → (processReactors M s rs).2 = false →
      (processReactors M s rs).1.count < M := by
  induction rs with
  | nil =>
    intro s h _
    simpa [processReactors] using h
  | cons r rest ih =>
    intro s h hc
    simp only [processReactors] at hc ⊢
    by_cases hM : M ≤ (recordReactor s r).count
    · rw [if_pos hM] at hc
      simp at hc
    · rw [if_neg hM] at hc ⊢
      exact ih _ (Nat.lt_of_not_le hM) hc

theorem processReactors_no_cutoff (M : Nat) (rs : List Reactor) :
    ∀ s : ScanResult, s.count + rs.length < M →
      processReactors M s rs = (rs.foldl recordReactor s, false) := by
  induction rs with
  | nil =>
    intro s _
    simp [processReactors]
  | cons r rest ih =>
    intro s h
    have hle := (recordReactor_count_le s r).2
    simp only [List.length_cons] at h
    have hM : ¬ M ≤ (recordReactor s r).count := by omega
    have h1 : (recordReactor s r).count + rest.length < M := by omega
    simp only [processReactors, if_neg hM, List.foldl_cons]
    exact ih _ h1

theorem foldl_record_count_le (rs : List Reactor) :
    ∀ s : ScanResult, (rs.foldl recordReactor s).count ≤ s.count + rs.length := by
  induction rs with
  | nil =>
    intro s
    simp
  | cons r rest ih =>
    intro s
    have h1 := (recordReactor_count_le s r).2
    have h2 := ih (recordReactor s r)
    simp only [List.foldl_cons, List.length_cons]
    omega

theorem processNotifs_count_le (M : Nat) (ns : List Notification) :
    ∀ (s : ScanResult) (c : Bool),
      (processNotifs M ns s c).1.count ≤ max M s.count + likeCount ns := by
  induction ns with
  | nil =>
    intro s c
    exact Nat.le_trans (Nat.le_max_right M s.count) (Nat.le_add_right _ _)
  | cons n rest ih =>
    intro s c
    by_cases hl : n.reactionType = "like"
    · have h3 : likeCount (n :: rest) = likeCount rest + 1 := by
        simp [likeCount, hl]
      have h1 := processReactors_count_le M n.reactors s
      have h2 := ih (processReactors M s n.reactors).1 (c || (processReactors M s n.reactors).2)
      have h4 : max M (processReactors M s n.reactors).1.count ≤ max M (s.count + 1) :=
        Nat.max_le.mpr ⟨Nat.le_max_left _ _, Nat.le_trans h1 (Nat.le_refl _)⟩
      have h5 : max M (s.count + 1) ≤ max M s.count + 1 := max_succ_le_succ_max M s.count
      simp only [processNotifs, if_pos hl]
      calc (processNotifs M rest (processReactors M s n.reactors).1
              (c || (processReactors M s n.reactors).2)).1.count
          ≤ max M (processReactors M s n.reactors).1.count + likeCount rest := h2
        _ ≤ max M (s.count + 1) + likeCount rest := Nat.add_le_add_right h4 _
        _ ≤ (max M s.count + 1) + likeCount rest := Nat.add_le_add_right h5 _
        _ = max M s.count + likeCount (n :: rest) := by rw [h3]; omega
    · have h3 : likeCount (n :: rest) = likeCount rest := by
        simp [likeCount, hl]
      simp only [processNotifs, if_neg hl]
      rw [h3]
      exact ih s c

theorem processNotifs_cutoff_true (M : Nat) (ns : List Notification) :
    ∀ s : ScanResult, (processNotifs M ns s true).2 = true := by
  induction ns with
  | nil =>
    intro s
    simp [processNotifs]
  | cons n rest ih =>
    intro s
    by_cases hl : n.reactionType = "like" <;> simp [processNotifs, hl, ih]

theorem processNotifs_cutoff_false (M : Nat) (ns : List Notification) :
    ∀ s : ScanResult, s.count < M → (processNotifs M ns s false).2 = false →
      (processNotifs M ns s false).1.count < M := by
  induction ns with
  | nil =>
    intro s h _
    simpa [processNotifs] using h
  | cons n rest ih =>
    intro s h hc
    by_cases hl : n.reactionType = "like"
    · simp only [processNotifs, if_pos hl, Bool.false_or] at hc ⊢
      by_cases hp : (processReactors M s n.reactors).2 = true
      · rw [hp, processNotifs_cutoff_true] at hc
        exact Bool.noConfusion hc
      · have hp' : (processReactors M s n.reactors).2 = false := by
          simpa using hp
        rw [hp'] at hc ⊢
        exact ih _ (processReactors_cutoff_false M n.reactors s h hp') hc
    · simp only [processNotifs, if_neg hl] at hc ⊢
      exact ih _ h hc

theorem processNotifs_no_cutoff (M : Nat) (ns : List Notification) :
    ∀ s : ScanResult, s.count + (likeReactors ns).length < M →
      processNotifs M ns s false = ((likeReactors ns).foldl recordReactor s, false) := by
  induction ns with
  | nil =>
    intro s _
    simp [processNotifs, likeReactors]
  | cons n rest ih =>
    intro s h
    by_cases hl : n.reactionType = "like"
    · have hlen : (likeReactors (n :: rest)).length
          = n.reactors.length + (likeReactors rest).length := by
        simp [likeReactors, hl]
      rw [hlen] at h
      have h1 : s.count + n.reactors.length < M := by omega
      have h2 := processReactors_no_cutoff M n.reactors s h1
      have h3 : (n.reactors.foldl recordReactor s).count + (likeReactors rest).length < M := by
        have := foldl_record_count_le n.reactors s
        omega
      simp only [processNotifs, if_pos hl, h2, Bool.or_false]
      rw [ih _ h3]
      simp [likeReactors, hl, List.foldl_append]
    · simp only [processNotifs, if_neg hl]
      have hlen : (likeReactors (n :: rest)).length = (likeReactors rest).length := by
        simp [likeReactors, hl]
      rw [hlen] at h
      rw [ih _ h]
      simp [likeReactors, hl]

theorem getReactionsToUser_nil (M : Nat) (s : ScanResult) (d : Nat) :
    getReactionsToUser M [] s d = (s, 1) := rfl

theorem getReactionsToUser_cons (M : Nat) (page : Page) (rest : List Page)
    (s : ScanResult) (d : Nat) :
    getReactionsToUser M (page :: rest) s d =
      if !page.hasNext || (processNotifs M page.notifications s false).2 || d == 4
      then ((processNotifs M page.notifications s false).1, 1)
      else ((getReactionsToUser M rest (processNotifs M page.notifications s false).1 (d + 1)).1,
            (getReactionsToUser M rest (processNotifs M page.notifications s false).1 (d + 1)).2
              + 1) := rfl

theorem scan_count_le (M : Nat) (feed : List Page) :
    ∀ (s : ScanResult) (d : Nat), s.count < M →
      (getReactionsToUser M feed s d).1.count ≤ M + maxLikeNotifs feed := by
  induction feed with
  | nil =>
    intro s d h
    rw [getReactionsToUser_nil]
    simp only [maxLikeNotifs]
    omega
  | cons page rest ih =>
    intro s d h
    have hb : (processNotifs M page.notifications s false).1.count
        ≤ M + likeCount page.notifications := by
      have h1 := processNotifs_count_le M page.notifications s false
      rw [Nat.max_eq_left (Nat.le_of_lt h)] at h1
      exact h1
    have hmax1 : likeCount page.notifications ≤ maxLikeNotifs (page :: rest) := by
      simp only [maxLikeNotifs]
      exact Nat.le_max_left _ _
    have hmax2 : maxLikeNotifs rest ≤ maxLikeNotifs (page :: rest) := by
      simp only [maxLikeNotifs]
      exact Nat.le_max_right _ _
    rw [getReactionsToUser_cons]
    split
    · exact Nat.le_trans hb (by omega)
    · rename_i hcond
      simp only [Bool.or_eq_true, not_or] at hcond
      have hp2 : (processNotifs M page.notifications s false).2 = false := by
        cases hq : (processNotifs M page.notifications s false).2
        · rfl
        · exact absurd hq hcond.1.2
      have hlt := processNotifs_cutoff_false M page.notifications s h hp2
      have := ih (processNotifs M page.notifications s false).1 (d + 1) hlt
      exact Nat.le_trans this (by omega)

theorem scan_fetches_le (M : Nat) (feed : List Page) :
    ∀ (s : ScanResult) (d : Nat), d ≤ 4 → (getReactionsToUser M feed s d).2 ≤ 5 - d := by
  induction feed with
  | nil =>
    intro s d hd
    rw [getReactionsToUser_nil]
    omega
  | cons page rest ih =>
    intro s d hd
    rw [getReactionsToUser_cons]
    split
    · show 1 ≤ 5 - d
      omega
    · rename_i hcond
      simp only [Bool.or_eq_true, not_or] at hcond
      have hd4 : d ≠ 4 := by
        intro hh
        exact absurd (by simp [hh]) hcond.2
      have h1 := ih (processNotifs M page.notifications s false).1 (d + 1) (by omega)
      show (getReactionsToUser M rest (processNotifs M page.notifications s false).1 (d + 1)).2
          + 1 ≤ 5 - d
      omega

end Farcoin

namespace Farcoin

/-- C7: for every input feed the paginated aggregation of
`getReactionsToUser` performs no more than 4 page fetches, even if every
page offers a further cursor: starting from the initial depth 1 used by
the `/scan` handler, the recursion halts when there is no next cursor,
when the cutoff flag is set, or when the depth counter reaches 4, so the
fetch count never exceeds 4. -/
theorem c7_depth_cutoff (M : Nat) (feed : List Page) (s : ScanResult) :
    (getReactionsToUser M feed s 1).2 ≤ 4 :=
  scan_fetches_le M feed s 1 (by omega)

/-- C2 counterexample: with `maxResults = 1` and a single page holding
two like notifications from distinct reactors, the inner `break` leaves
only the reactor loop, the notification loop continues, and the final
distinct-reactor count is 2 — the claim that `result.count` never
exceeds `maxResults` fails. -/
theorem c2_counterexample :
    ¬ (getReactionsToUser 1
        [⟨[⟨"like", [⟨1, "a", 10⟩]⟩, ⟨"like", [⟨2, "b", 20⟩]⟩], false⟩]
        emptyScan 1).1.count ≤ 1 := by
  decide

/-- C2 (amended): the distinct-reactor count can overshoot `maxResults`,
but only within the page on which the cutoff fired: starting from the
empty accumulator with `maxResults = M ≥ 1`, the final count is at most
`M` plus the largest number of like notifications on any single page
(each like notification processed after the cutoff records at most one
further reactor); and aggregation does stop at the page boundary where
the cutoff fired — a page whose processing set the cutoff flag is the
last page fetched. -/
theorem c2_cutoff_correctness (feed : List Page) (M : Nat) (hM : 1 ≤ M) :
    (getReactionsToUser M feed emptyScan 1).1.count ≤ M + maxLikeNotifs feed ∧
    (∀ (page : Page) (rest : List Page) (s : ScanResult) (d : Nat),
      (processNotifs M page.notifications s false).2 = true →
      getReactionsToUser M (page :: rest) s d =
        ((processNotifs M page.notifications s false).1, 1)) := by
  constructor
  · exact scan_count_le M feed emptyScan 1 (by simp [emptyScan]; omega)
  · intro page rest s d hcut
    rw [getReactionsToUser_cons, hcut]
    simp

/-- Witness for C2 at a concrete feed and `maxResults = 2`. -/
theorem c2_witness :
    (getReactionsToUser 2
      [⟨[⟨"like", [⟨1, "a", 10⟩]⟩, ⟨"like", [⟨2, "b", 20⟩]⟩], false⟩]
      emptyScan 1).1.count ≤
      2 + maxLikeNotifs [⟨[⟨"like", [⟨1, "a", 10⟩]⟩, ⟨"like", [⟨2, "b", 20⟩]⟩], false⟩] :=
  (c2_cutoff_correctness _ 2 (by omega)).1

end Farcoin

namespace Farcoin

/-! ### Characterisation of the `/sign` accumulator -/

/-- The attributable adjusted timestamps of one message page. -/
def msgsAttTimes (likedFid rangeClose : Nat) (msgs : List HubMessage) : List Nat :=
  (msgs.filter (attributable likedFid rangeClose)).map (fun m => m.timestamp + frcEpoch)

/-- The accumulator state reached after processing the attributable
timestamps `ts`: token count is the number of processed timestamps, and
the window bounds are their minimum and maximum once nonempty. -/
def AccRepr (acc : SignAcc) (ts : List Nat) : Prop :=
  acc.numTokens = ts.length ∧
  (ts = [] → acc = initSignAcc) ∧
  (ts ≠ [] → ∃ s e, acc.startTime = some s ∧ acc.endTime = some e ∧
    s ∈ ts ∧ e ∈ ts ∧ ∀ x ∈ ts, s ≤ x ∧ x ≤ e)

theorem accRepr_init : AccRepr initSignAcc [] :=
  ⟨rfl, fun _ => rfl, by simp⟩

theorem accRepr_bump {acc : SignAcc} {ts : List Nat} (h : AccRepr acc ts)
    (hpos : ∀ x ∈ ts, 0 < x) (t : Nat) (_ht : 0 < t) :
    AccRepr (bumpAcc acc t) (ts ++ [t]) := by
  obtain ⟨hlen, hnil, hcons⟩ := h
  by_cases hts : ts = []
  · subst hts
    rw [hnil rfl]
    refine ⟨by simp [bumpAcc, initSignAcc], by simp, fun _ => ⟨t, t, ?_, ?_, by simp, by simp,
      by simp⟩⟩
    · simp [bumpAcc, initSignAcc]
    · simp [bumpAcc, initSignAcc]
  · obtain ⟨s, e, hs, he, hsm, hem, hb⟩ := hcons hts
    have hspos : 0 < s := hpos s hsm
    have hstart : (bumpAcc acc t).startTime = some (min s t) := by
      simp [bumpAcc, hs]
      omega
    have hend : (bumpAcc acc t).endTime = some (max e t) := by
      simp [bumpAcc, he]
    refine ⟨by simp [bumpAcc, hlen], by simp, fun _ => ⟨min s t, max e t, hstart, hend, ?_, ?_, ?_⟩⟩
    · rcases Nat.le_total s t with hc | hc
      · rw [Nat.min_eq_left hc]
        exact List.mem_append_left _ hsm
      · rw [Nat.min_eq_right hc]
        exact List.mem_append_right _ (by simp)
    · rcases Nat.le_total e t with hc | hc
      · rw [Nat.max_eq_right hc]
        exact List.mem_append_right _ (by simp)
      · rw [Nat.max_eq_left hc]
        exact List.mem_append_left _ hem
    · intro x hx
      rcases List.mem_append.mp hx with hx | hx
      · have := hb x hx
        constructor
        · exact Nat.le_trans (Nat.min_le_left s t) this.1
        · exact Nat.le_trans this.2 (Nat.le_max_left e t)
      · simp only [List.mem_singleton] at hx
        rw [hx]
        exact ⟨Nat.min_le_right s t, Nat.le_max_right e t⟩

theorem msgsAttTimes_pos (l rc : Nat) (msgs : List HubMessage) :
    ∀ x ∈ msgsAttTimes l rc msgs, 0 < x := by
  intro x hx
  simp only [msgsAttTimes, List.mem_map] at hx
  obtain ⟨m, _, rfl⟩ := hx
  have hfe : frcEpoch = 1609459200 := rfl
  omega

theorem attTimes_pos (l rc : Nat) (pages : List (List HubMessage)) :
    ∀ x ∈ attTimes l rc pages, 0 < x := by
  intro x hx
  simp only [attTimes, List.mem_map] at hx
  obtain ⟨m, _, rfl⟩ := hx
  have hfe : frcEpoch = 1609459200 := rfl
  omega

theorem attTimes_cons (l rc : Nat) (pg : List HubMessage) (rest : List (List HubMessage)) :
    attTimes l rc (pg :: rest) = msgsAttTimes l rc pg ++ attTimes l rc rest := by
  simp [attTimes, msgsAttTimes, List.filter_append]

theorem signScanPage_repr (l rc : Nat) (msgs : List HubMessage) :
    ∀ (acc : SignAcc) (ts : List Nat), AccRepr acc ts → (∀ x ∈ ts, 0 < x) →
      AccRepr (signScanPage l rc acc msgs) (ts ++ msgsAttTimes l rc msgs) := by
  induction msgs with
  | nil =>
    intro acc ts h _
    simpa [signScanPage, msgsAttTimes] using h
  | cons m rest ih =>
    intro acc ts h hpos
    have hstep : signScanPage l rc acc (m :: rest) =
        signScanPage l rc (signStep l rc acc m) rest := rfl
    by_cases ha : attributable l rc m = true
    · have ht : 0 < m.timestamp + frcEpoch := by
        have hfe : frcEpoch = 1609459200 := rfl
        omega
      have h1 : AccRepr (signStep l rc acc m) (ts ++ [m.timestamp + frcEpoch]) := by
        rw [signStep, if_pos ha]
        exact accRepr_bump h hpos _ ht
      have hpos1 : ∀ x ∈ ts ++ [m.timestamp + frcEpoch], 0 < x := by
        intro x hx
        rcases List.mem_append.mp hx with hx | hx
        · exact hpos x hx
        · simp only [List.mem_singleton] at hx
          subst hx
          exact ht
      have h2 := ih (signStep l rc acc m) (ts ++ [m.timestamp + frcEpoch]) h1 hpos1
      have hmt : msgsAttTimes l rc (m :: rest) =
          (m.timestamp + frcEpoch) :: msgsAttTimes l rc rest := by
        simp [msgsAttTimes, List.filter_cons, ha]
      rw [hstep, hmt, ← List.singleton_append, ← List.append_assoc]
      exact h2
    · have ha' : attributable l rc m = false := by
        cases hq : attributable l rc m
        · rfl
        · exact absurd hq ha
      have h1 : signStep l rc acc m = acc := by
        rw [signStep, ha']
        simp
      have hmt : msgsAttTimes l rc (m :: rest) = msgsAttTimes l rc rest := by
        simp [msgsAttTimes, List.filter_cons, ha']
      rw [hstep, h1, hmt]
      exact ih acc ts h hpos

theorem signScan_repr_aux (l rc : Nat) (pages : List (List HubMessage)) :
    ∀ (acc : SignAcc) (ts : List Nat), AccRepr acc ts → (∀ x ∈ ts, 0 < x) →
      AccRepr (pages.foldl (signScanPage l rc) acc) (ts ++ attTimes l rc pages) := by
  induction pages with
  | nil =>
    intro acc ts h _
    simpa [attTimes] using h
  | cons pg rest ih =>
    intro acc ts h hpos
    have h1 := signScanPage_repr l rc pg acc ts h hpos
    have hpos1 : ∀ x ∈ ts ++ msgsAttTimes l rc pg, 0 < x := by
      intro x hx
      rcases List.mem_append.mp hx with hx | hx
      · exact hpos x hx
      · exact msgsAttTimes_pos l rc pg x hx
    have h2 := ih (signScanPage l rc acc pg) (ts ++ msgsAttTimes l rc pg) h1 hpos1
    rw [attTimes_cons, List.foldl_cons, ← List.append_assoc]
    exact h2

theorem signScan_repr (l rc : Nat) (pages : List (List HubMessage)) :
    AccRepr (signScan l rc pages) (attTimes l rc pages) := by
  have := signScan_repr_aux l rc pages initSignAcc [] accRepr_init (by simp)
  simpa [signScan] using this

theorem signScanPageOld_eq (l rc : Nat) (msgs : List HubMessage) :
    ∀ acc : SignAcc, signScanPageOld l rc acc msgs =
      signScanPage l rc acc
        (msgs.takeWhile (fun m => decide (rc < m.timestamp + frcEpoch))) := by
  induction msgs with
  | nil =>
    intro acc
    rfl
  | cons m rest ih =>
    intro acc
    by_cases hle : m.timestamp + frcEpoch ≤ rc
    · have hd : decide (rc < m.timestamp + frcEpoch) = false := by
        simp
        omega
      simp only [signScanPageOld, if_pos hle, List.takeWhile_cons, hd]
      rfl
    · have hlt : rc < m.timestamp + frcEpoch := by omega
      have hd : decide (rc < m.timestamp + frcEpoch) = true := by
        simpa using hlt
      have hstep : signStep l rc acc m =
          if m.targetFid == l then bumpAcc acc (m.timestamp + frcEpoch) else acc := by
        simp [signStep, attributable, hd]
      simp only [signScanPageOld, if_neg hle, List.takeWhile_cons, hd, if_true]
      rw [ih]
      have hpage : signScanPage l rc acc
          (m :: rest.takeWhile (fun m => decide (rc < m.timestamp + frcEpoch))) =
          signScanPage l rc (signStep l rc acc m)
            (rest.takeWhile (fun m => decide (rc < m.timestamp + frcEpoch))) := rfl
      rw [hpage, hstep]

theorem signScanOld_eq (l rc : Nat) (pages : List (List HubMessage)) :
    signScanOld l rc pages =
      signScan l rc (pages.map (fun pg =>
        pg.takeWhile (fun m => decide (rc < m.timestamp + frcEpoch)))) := by
  unfold signScanOld signScan
  rw [List.foldl_map]
  have hfun : signScanPageOld l rc = fun (acc : SignAcc) (pg : List HubMessage) =>
      signScanPage l rc acc
        (pg.takeWhile (fun m => decide (rc < m.timestamp + frcEpoch))) := by
    funext acc pg
    exact signScanPageOld_eq l rc pg acc
  rw [hfun]

end Farcoin

namespace Farcoin

/-- C1 counterexample: in the `part_000` revision of the `/sign` scan, a
page holding a stale reaction (adjusted time at or before the range
close) followed by a qualifying like of the liked fid yields
`numTokens = 0`, although exactly one fetched like reaction satisfies
`t > rangeClose` and targets the liked fid — so the contribution does
depend on the order of reactions in the page. -/
theorem c1_counterexample :
    (signScanOld 7 (frcEpoch + 10) [[⟨5, 7⟩, ⟨20, 7⟩]]).numTokens = 0 ∧
    ([[(⟨5, 7⟩ : HubMessage), ⟨20, 7⟩]].flatten.filter
      (attributable 7 (frcEpoch + 10))).length = 1 := by
  exact ⟨rfl, rfl⟩

/-- C1 (amended): in the `src/index.js` revision of the `/sign` scan the
claim holds — `numTokens` counts exactly the fetched like reactions with
`t > rangeClose` whose target fid is the liked fid, independently of the
order of the paged feed (any feed with the same reactions in any order
gives the same count).  In the `part_000` revision, a reaction with
`t ≤ rangeClose` stops the scan of the remainder of its page, so a
qualifying reaction contributes only when every earlier reaction on its
page also has `t > rangeClose`. -/
theorem c1_window_filter (likedFid rangeClose : Nat) (pages pages2 : List (List HubMessage))
    (hperm : pages.flatten.Perm pages2.flatten) :
    (signScan likedFid rangeClose pages).numTokens =
      (pages.flatten.filter (attributable likedFid rangeClose)).length ∧
    (signScan likedFid rangeClose pages).numTokens =
      (signScan likedFid rangeClose pages2).numTokens ∧
    (signScanOld likedFid rangeClose pages).numTokens =
      ((pages.map (fun pg =>
          pg.takeWhile (fun m => decide (rangeClose < m.timestamp + frcEpoch)))).flatten.filter
        (attributable likedFid rangeClose)).length := by
  have key : ∀ ps : List (List HubMessage),
      (signScan likedFid rangeClose ps).numTokens =
        (ps.flatten.filter (attributable likedFid rangeClose)).length := by
    intro ps
    have h := (signScan_repr likedFid rangeClose ps).1
    rw [h]
    simp only [attTimes, List.length_map]
  refine ⟨key pages, ?_, ?_⟩
  · rw [key pages, key pages2, ← List.countP_eq_length_filter, ← List.countP_eq_length_filter]
    exact List.Perm.countP_eq _ hperm
  · rw [signScanOld_eq, key]

/-- Witness for C1 at a concrete feed (permuted with itself). -/
theorem c1_witness :
    (signScan 7 0 [[⟨1, 7⟩]]).numTokens =
      ([[(⟨1, 7⟩ : HubMessage)]].flatten.filter (attributable 7 0)).length :=
  (c1_window_filter 7 0 [[⟨1, 7⟩]] [[⟨1, 7⟩]] (List.Perm.refl _)).1

/-- C4 counterexample: the `part_000` revision of the mint-argument
builder has no `numTokens === 0` check; on a feed with no attributable
reaction it returns a tuple with a zero count and null window bounds
instead of failing. -/
theorem c4_counterexample :
    signHandlerOld "0xabc" 7 9 0 [] "sig0" =
      [MintArg.addr "0xabc", MintArg.num 7, MintArg.nums [9], MintArg.nums [0],
       MintArg.optNums [none], MintArg.optNums [none], MintArg.sigs ["sig0"]] := rfl

/-- C4 (amended): the `src/index.js` builder behaves as claimed — when
`numTokens = 0` it fails with the `"No tokens to mint"` error and returns
no tuple, and every successful tuple carries a positive count and
non-null positive window bounds.  The `part_000` revision performs no
such check and unconditionally returns the tuple with count `[0]` and
bounds `[null]`, `[null]` (its subsequent ABI encoding of `null` would
only fail later, in the external ethers library). -/
theorem c4_empty_mint (likedAddress : String) (likedFid likerFid rangeClose : Nat)
    (pages : List (List HubMessage)) (signature : String) :
    ((signScan likedFid rangeClose pages).numTokens = 0 →
      signHandler likedAddress likedFid likerFid rangeClose pages signature =
        Except.error "No tokens to mint") ∧
    (∀ out, signHandler likedAddress likedFid likerFid rangeClose pages signature =
        Except.ok out →
      ∃ n s e, 0 < n ∧ 0 < s ∧ 0 < e ∧
        out = [MintArg.addr likedAddress, MintArg.num likedFid, MintArg.nums [likerFid],
               MintArg.nums [n], MintArg.optNums [some s], MintArg.optNums [some e],
               MintArg.sigs [signature]]) ∧
    ((signScanOld likedFid rangeClose pages).numTokens = 0 →
      signHandlerOld likedAddress likedFid likerFid rangeClose pages signature =
        [MintArg.addr likedAddress, MintArg.num likedFid, MintArg.nums [likerFid],
         MintArg.nums [0], MintArg.optNums [none], MintArg.optNums [none],
         MintArg.sigs [signature]]) := by
  refine ⟨?_, ?_, ?_⟩
  · intro h0
    simp [signHandler, h0]
  · intro out hok
    by_cases h0 : (signScan likedFid rangeClose pages).numTokens = 0
    · simp [signHandler, h0] at hok
    · simp only [signHandler, if_neg h0, Except.ok.injEq] at hok
      obtain ⟨hlen, hnil, hcons⟩ := signScan_repr likedFid rangeClose pages
      have hts : attTimes likedFid rangeClose pages ≠ [] := by
        intro hh
        rw [hh] at hlen
        simp only [List.length_nil] at hlen
        exact h0 hlen
      obtain ⟨s, e, hs, he, hsm, hem, _⟩ := hcons hts
      refine ⟨(signScan likedFid rangeClose pages).numTokens, s, e,
        Nat.pos_of_ne_zero h0, attTimes_pos likedFid rangeClose pages s hsm,
        attTimes_pos likedFid rangeClose pages e hem, ?_⟩
      rw [← hok, hs, he]
  · intro h0
    simp only [signHandlerOld]
    rw [signScanOld_eq] at h0 ⊢
    obtain ⟨hlen, hnil, _⟩ := signScan_repr likedFid rangeClose
      (pages.map (fun pg => pg.takeWhile (fun m => decide (rangeClose < m.timestamp + frcEpoch))))
    rw [h0] at hlen
    have hts := List.length_eq_zero.mp hlen.symm
    rw [hnil hts]
    rfl

/-- Witness for C4: a feed whose only reaction is at or before the range
close makes the `src/index.js` handler fail with the error. -/
theorem c4_witness :
    signHandler "0xabc" 7 9 (frcEpoch + 10) [[⟨5, 7⟩]] "sig0" =
      Except.error "No tokens to mint" :=
  (c4_empty_mint "0xabc" 7 9 (frcEpoch + 10) [[⟨5, 7⟩]] "sig0").1 rfl

/-- C5: when the `src/index.js` `/sign` handler succeeds, the returned
`mintArguments` is exactly the positional tuple
`(likedAddress, likedFid, [likerFid], [numTokens], [startTime],
[endTime])` with the signature list as the appended final element, where
`numTokens` is the number of attributable reactions and `startTime` /
`endTime` are the minimum and maximum attributable adjusted reaction
timestamps of this cycle. -/
theorem c5_mint_arguments (likedAddress : String) (likedFid likerFid rangeClose : Nat)
    (pages : List (List HubMessage)) (signature : String) (out : List MintArg)
    (hok : signHandler likedAddress likedFid likerFid rangeClose pages signature =
      Except.ok out) :
    ∃ s e, out =
        [MintArg.addr likedAddress, MintArg.num likedFid, MintArg.nums [likerFid],
         MintArg.nums [(attTimes likedFid rangeClose pages).length],
         MintArg.optNums [some s], MintArg.optNums [some e], MintArg.sigs [signature]] ∧
      s ∈ attTimes likedFid rangeClose pages ∧ e ∈ attTimes likedFid rangeClose pages ∧
      ∀ x ∈ attTimes likedFid rangeClose pages, s ≤ x ∧ x ≤ e := by
  by_cases h0 : (signScan likedFid rangeClose pages).numTokens = 0
  · simp [signHandler, h0] at hok
  · simp only [signHandler, if_neg h0, Except.ok.injEq] at hok
    obtain ⟨hlen, hnil, hcons⟩ := signScan_repr likedFid rangeClose pages
    have hts : attTimes likedFid rangeClose pages ≠ [] := by
      intro hh
      rw [hh] at hlen
      simp only [List.length_nil] at hlen
      exact h0 hlen
    obtain ⟨s, e, hs, he, hsm, hem, hb⟩ := hcons hts
    exact ⟨s, e, by rw [← hok, hs, he, hlen], hsm, hem, hb⟩

/-- Witness for C5 at a concrete successful run of the handler. -/
theorem c5_witness :
    ∃ s e,
      [MintArg.addr "0xabc", MintArg.num 7, MintArg.nums [9], MintArg.nums [1],
       MintArg.optNums [some 1609459300], MintArg.optNums [some 1609459300],
       MintArg.sigs ["sig0"]] =
        [MintArg.addr "0xabc", MintArg.num 7, MintArg.nums [9],
         MintArg.nums [(attTimes 7 0 [[⟨100, 7⟩]]).length],
         MintArg.optNums [some s], MintArg.optNums [some e], MintArg.sigs ["sig0"]] ∧
      s ∈ attTimes 7 0 [[⟨100, 7⟩]] ∧ e ∈ attTimes 7 0 [[⟨100, 7⟩]] ∧
      ∀ x ∈ attTimes 7 0 [[⟨100, 7⟩]], s ≤ x ∧ x ≤ e :=
  c5_mint_arguments "0xabc" 7 9 0 [[⟨100, 7⟩]] "sig0" _ rfl

end Farcoin

namespace Farcoin

/-! ### `/mint` fan-out lemmas -/

theorem promiseAll_error (responses : List (Except String SignerResult)) (e : String)
    (h : Except.error e ∈ responses) :
    ∃ msg, promiseAll responses = Except.error msg := by
  induction responses with
  | nil => simp at h
  | cons x rest ih =>
    cases x with
    | error e0 => exact ⟨e0, rfl⟩
    | ok v =>
      rcases List.mem_cons.mp h with h1 | h1
      · exact absurd h1 (by simp)
      · obtain ⟨msg, hmsg⟩ := ih h1
        refine ⟨msg, ?_⟩
        simp [promiseAll, hmsg, Except.map]

theorem promiseAll_map_ok (rs : List SignerResult) :
    promiseAll (rs.map Except.ok) = Except.ok rs := by
  induction rs with
  | nil => rfl
  | cons r rest ih => simp [promiseAll, ih, Except.map]

/-- C3: the `/mint` attestation fan-out is all-or-nothing — if any one of
the configured signer calls fails, the whole handler returns an error and
no partial signature list; if all N succeed, the response is the first
signer's echoed arguments with a final element holding exactly N
signatures, one per configured signer, in signer-configuration order. -/
theorem c3_all_or_nothing (responses : List (Except String SignerResult)) :
    ((∃ e, Except.error e ∈ responses) → ∃ msg, mintHandler responses = Except.error msg) ∧
    (∀ rs : List SignerResult, rs ≠ [] → responses = rs.map Except.ok →
      ∃ r0 tl, rs = r0 :: tl ∧
        mintHandler responses =
          Except.ok (r0.arguments ++ [MintArg.sigs (rs.map (fun r => r.signature))]) ∧
        (rs.map (fun r => r.signature)).length = responses.length) := by
  constructor
  · rintro ⟨e, he⟩
    obtain ⟨msg, hmsg⟩ := promiseAll_error responses e he
    exact ⟨msg, by simp [mintHandler, hmsg]⟩
  · intro rs hne hresp
    cases rs with
    | nil => exact absurd rfl hne
    | cons r0 tl =>
      refine ⟨r0, tl, rfl, ?_, by simp [hresp]⟩
      rw [hresp]
      have hpa := promiseAll_map_ok (r0 :: tl)
      simp only [mintHandler, hpa]

/-- Witness for C3 at a concrete single-signer success. -/
theorem c3_witness :
    ∃ r0 tl, [(⟨[MintArg.num 7], "sigA"⟩ : SignerResult)] = r0 :: tl ∧
      mintHandler [Except.ok (⟨[MintArg.num 7], "sigA"⟩ : SignerResult)] =
        Except.ok (r0.arguments ++
          [MintArg.sigs (([(⟨[MintArg.num 7], "sigA"⟩ : SignerResult)]).map
            (fun r => r.signature))]) ∧
      (([(⟨[MintArg.num 7], "sigA"⟩ : SignerResult)]).map (fun r => r.signature)).length =
        ([Except.ok ⟨[MintArg.num 7], "sigA"⟩] : List (Except String SignerResult)).length :=
  (c3_all_or_nothing [Except.ok ⟨[MintArg.num 7], "sigA"⟩]).2
    [⟨[MintArg.num 7], "sigA"⟩] (by simp) rfl

/-- C9: the `/mint` output does not depend on the arguments echoed by any
signer other than the first — two all-success runs with the same first
echoed argument list and the same per-signer signatures produce identical
`mintArguments`, even if the other signers echoed different arguments —
and the N signatures are appended in signer-configuration order as the
final tuple element. -/
theorem c9_no_cross_check (rs1 rs2 : List SignerResult)
    (h1 : rs1 ≠ []) (h2 : rs2 ≠ [])
    (hargs : rs1.head?.map (fun r => r.arguments) = rs2.head?.map (fun r => r.arguments))
    (hsigs : rs1.map (fun r => r.signature) = rs2.map (fun r => r.signature)) :
    mintHandler (rs1.map Except.ok) = mintHandler (rs2.map Except.ok) ∧
    ∃ a, mintHandler (rs1.map Except.ok) =
      Except.ok (a ++ [MintArg.sigs (rs1.map (fun r => r.signature))]) := by
  cases rs1 with
  | nil => exact absurd rfl h1
  | cons r0 t1 =>
    cases rs2 with
    | nil => exact absurd rfl h2
    | cons q0 t2 =>
      simp only [List.head?_cons, Option.map_some'] at hargs
      have hargs' : r0.arguments = q0.arguments := Option.some.inj hargs
      have hpa1 := promiseAll_map_ok (r0 :: t1)
      have hpa2 := promiseAll_map_ok (q0 :: t2)
      constructor
      · simp only [mintHandler, hpa1, hpa2]
        rw [hargs', hsigs]
      · exact ⟨r0.arguments, by simp only [mintHandler, hpa1]⟩

/-- Witness for C9: the second signer echoes different arguments, the
combined output is unchanged. -/
theorem c9_witness :
    mintHandler ([(⟨[MintArg.num 1], "s1"⟩ : SignerResult),
        ⟨[MintArg.num 2], "s2"⟩].map Except.ok) =
      mintHandler ([(⟨[MintArg.num 1], "s1"⟩ : SignerResult),
        ⟨[MintArg.num 99], "s2"⟩].map Except.ok) ∧
    ∃ a, mintHandler ([(⟨[MintArg.num 1], "s1"⟩ : SignerResult),
        ⟨[MintArg.num 2], "s2"⟩].map Except.ok) =
      Except.ok (a ++ [MintArg.sigs ([(⟨[MintArg.num 1], "s1"⟩ : SignerResult),
        ⟨[MintArg.num 2], "s2"⟩].map (fun r => r.signature))]) :=
  c9_no_cross_check [⟨[MintArg.num 1], "s1"⟩, ⟨[MintArg.num 2], "s2"⟩]
    [⟨[MintArg.num 1], "s1"⟩, ⟨[MintArg.num 99], "s2"⟩]
    (by simp) (by simp) rfl rfl

end Farcoin

namespace Farcoin

/-! ### Fold characterisation of the tally (for C6) -/

theorem foldl_record_likes (rs : List Reactor) :
    ∀ (s : ScanResult) (f : Nat),
      aget ((rs.foldl recordReactor s).fidLikes) f =
        aget s.fidLikes f + (rs.filter (fun r => decide (r.fid = f))).length := by
  induction rs with
  | nil =>
    intro s f
    simp
  | cons r rest ih =>
    intro s f
    rw [List.foldl_cons, ih, recordReactor_likes]
    by_cases hf : r.fid = f
    · simp [hf, List.filter_cons]
      omega
    · simp [hf, List.filter_cons]

theorem foldl_record_time (rs : List Reactor) :
    ∀ (s : ScanResult) (f : Nat),
      aget ((rs.foldl recordReactor s).fidLastLikeTime) f =
        ((rs.filter (fun r => decide (r.fid = f))).map (fun r => r.timestampSec)).foldl max
          (aget s.fidLastLikeTime f) := by
  induction rs with
  | nil =>
    intro s f
    simp
  | cons r rest ih =>
    intro s f
    rw [List.foldl_cons, ih, recordReactor_time]
    by_cases hf : r.fid = f <;> simp [hf, List.filter_cons]

theorem foldl_max_le (l : List Nat) : ∀ a : Nat, a ≤ l.foldl max a := by
  induction l with
  | nil =>
    intro a
    simp
  | cons x rest ih =>
    intro a
    rw [List.foldl_cons]
    exact Nat.le_trans (Nat.le_max_left a x) (ih (max a x))

theorem foldl_max_ge_mem (l : List Nat) : ∀ (a : Nat), ∀ x ∈ l, x ≤ l.foldl max a := by
  induction l with
  | nil =>
    intro a x hx
    simp at hx
  | cons y rest ih =>
    intro a x hx
    rcases List.mem_cons.mp hx with h1 | h1
    · subst h1
      rw [List.foldl_cons]
      exact Nat.le_trans (Nat.le_max_right a x) (foldl_max_le rest (max a x))
    · rw [List.foldl_cons]
      exact ih (max a y) x h1

theorem foldl_max_mem (l : List Nat) : ∀ a : Nat, l.foldl max a = a ∨ l.foldl max a ∈ l := by
  induction l with
  | nil =>
    intro a
    exact Or.inl rfl
  | cons y rest ih =>
    intro a
    rw [List.foldl_cons]
    rcases ih (max a y) with h | h
    · rcases max_choice a y with hc | hc
      · exact Or.inl (h.trans hc)
      · exact Or.inr (by rw [h, hc]; exact List.mem_cons_self _ _)
    · exact Or.inr (List.mem_cons_of_mem _ h)

theorem foldl_record_names_seen (rs : List Reactor) :
    ∀ (s : ScanResult) (f : Nat), aget s.fidLikes f ≠ 0 →
      alookup ((rs.foldl recordReactor s).fidNames) f = alookup s.fidNames f := by
  induction rs with
  | nil =>
    intro s f _
    rfl
  | cons r rest ih =>
    intro s f h
    rw [List.foldl_cons]
    have hlikes := recordReactor_likes s r f
    have hnames := recordReactor_names s r f
    by_cases hf : r.fid = f
    · have h0 : aget s.fidLikes r.fid ≠ 0 := by
        rw [hf]
        exact h
      rw [ih _ _ (by rw [hlikes, if_pos hf]; omega), hnames,
        if_neg (fun hc => h0 hc.2)]
    · rw [ih _ _ (by rw [hlikes, if_neg hf]; exact h), hnames,
        if_neg (fun hc => hf hc.1)]

theorem foldl_record_names_unseen (rs : List Reactor) :
    ∀ (s : ScanResult) (f : Nat), aget s.fidLikes f = 0 →
      alookup ((rs.foldl recordReactor s).fidNames) f =
        (match rs.find? (fun r => decide (r.fid = f)) with
         | some r => some r.username
         | none => alookup s.fidNames f) := by
  induction rs with
  | nil =>
    intro s f _
    rfl
  | cons r rest ih =>
    intro s f h
    rw [List.foldl_cons]
    by_cases hf : r.fid = f
    · have h0 : aget s.fidLikes r.fid = 0 := by
        rw [hf]
        exact h
      have hfound : (r :: rest).find? (fun r => decide (r.fid = f)) = some r := by
        simp [List.find?_cons, hf]
      rw [hfound]
      have hseen : aget (recordReactor s r).fidLikes f ≠ 0 := by
        rw [recordReactor_likes, if_pos hf]
        omega
      rw [foldl_record_names_seen rest _ _ hseen, recordReactor_names,
        if_pos ⟨hf, h0⟩]
    · have hskip : (r :: rest).find? (fun r => decide (r.fid = f)) =
          rest.find? (fun r => decide (r.fid = f)) := by
        simp [List.find?_cons, hf]
      rw [hskip]
      have hlikes : aget (recordReactor s r).fidLikes f = 0 := by
        rw [recordReactor_likes, if_neg hf]
        exact h
      rw [ih _ _ hlikes, recordReactor_names, if_neg (fun hc => hf hc.1)]

theorem foldl_recordOld_time_seen (rs : List Reactor) :
    ∀ (s : ScanResult) (f : Nat), aget s.fidLikes f ≠ 0 →
      aget ((rs.foldl recordReactorOld s).fidLastLikeTime) f = aget s.fidLastLikeTime f := by
  induction rs with
  | nil =>
    intro s f _
    rfl
  | cons r rest ih =>
    intro s f h
    rw [List.foldl_cons]
    have hlikes := recordReactorOld_likes s r f
    have htime := recordReactorOld_time s r f
    by_cases hf : r.fid = f
    · have h0 : aget s.fidLikes r.fid ≠ 0 := by
        rw [hf]
        exact h
      rw [ih _ _ (by rw [hlikes, if_pos hf]; omega), htime,
        if_neg (fun hc => h0 hc.2)]
    · rw [ih _ _ (by rw [hlikes, if_neg hf]; exact h), htime,
        if_neg (fun hc => hf hc.1)]

theorem foldl_recordOld_time_unseen (rs : List Reactor) :
    ∀ (s : ScanResult) (f : Nat), aget s.fidLikes f = 0 →
      aget ((rs.foldl recordReactorOld s).fidLastLikeTime) f =
        (match rs.find? (fun r => decide (r.fid = f)) with
         | some r => r.timestampSec
         | none => aget s.fidLastLikeTime f) := by
  induction rs with
  | nil =>
    intro s f _
    rfl
  | cons r rest ih =>
    intro s f h
    rw [List.foldl_cons]
    by_cases hf : r.fid = f
    · have h0 : aget s.fidLikes r.fid = 0 := by
        rw [hf]
        exact h
      have hfound : (r :: rest).find? (fun r => decide (r.fid = f)) = some r := by
        simp [List.find?_cons, hf]
      rw [hfound]
      have hseen : aget (recordReactorOld s r).fidLikes f ≠ 0 := by
        rw [recordReactorOld_likes, if_pos hf]
        omega
      rw [foldl_recordOld_time_seen rest _ _ hseen, recordReactorOld_time,
        if_pos ⟨hf, h0⟩]
    · have hskip : (r :: rest).find? (fun r => decide (r.fid = f)) =
          rest.find? (fun r => decide (r.fid = f)) := by
        simp [List.find?_cons, hf]
      rw [hskip]
      have hlikes : aget (recordReactorOld s r).fidLikes f = 0 := by
        rw [recordReactorOld_likes, if_neg hf]
        exact h
      rw [ih _ _ hlikes, recordReactorOld_time, if_neg (fun hc => hf hc.1)]

end Farcoin

namespace Farcoin

theorem foldl_recordOld_count_le (rs : List Reactor) :
    ∀ s : ScanResult, (rs.foldl recordReactorOld s).count ≤ s.count + rs.length := by
  induction rs with
  | nil =>
    intro s
    simp
  | cons r rest ih =>
    intro s
    have h1 := (recordReactorOld_count_le s r).2
    have h2 := ih (recordReactorOld s r)
    simp only [List.foldl_cons, List.length_cons]
    omega

theorem processReactorsOld_no_cutoff (M : Nat) (rs : List Reactor) :
    ∀ s : ScanResult, s.count + rs.length < M →
      processReactorsOld M s rs = (rs.foldl recordReactorOld s, false) := by
  induction rs with
  | nil =>
    intro s _
    simp [processReactorsOld]
  | cons r rest ih =>
    intro s h
    have hle := (recordReactorOld_count_le s r).2
    simp only [List.length_cons] at h
    have hM : ¬ M ≤ (recordReactorOld s r).count := by omega
    have h1 : (recordReactorOld s r).count + rest.length < M := by omega
    simp only [processReactorsOld, if_neg hM, List.foldl_cons]
    exact ih _ h1

theorem processNotifsOld_no_cutoff (M : Nat) (ns : List Notification) :
    ∀ s : ScanResult, s.count + (likeReactors ns).length < M →
      processNotifsOld M ns s false = ((likeReactors ns).foldl recordReactorOld s, false) := by
  induction ns with
  | nil =>
    intro s _
    simp [processNotifsOld, likeReactors]
  | cons n rest ih =>
    intro s h
    by_cases hl : n.reactionType = "like"
    · have hlen : (likeReactors (n :: rest)).length
          = n.reactors.length + (likeReactors rest).length := by
        simp [likeReactors, hl]
      rw [hlen] at h
      have h1 : s.count + n.reactors.length < M := by omega
      have h2 := processReactorsOld_no_cutoff M n.reactors s h1
      have h3 : (n.reactors.foldl recordReactorOld s).count + (likeReactors rest).length < M := by
        have := foldl_recordOld_count_le n.reactors s
        omega
      simp only [processNotifsOld, if_pos hl, h2, Bool.or_false]
      rw [ih _ h3]
      simp [likeReactors, hl, List.foldl_append]
    · simp only [processNotifsOld, if_neg hl]
      have hlen : (likeReactors (n :: rest)).length = (likeReactors rest).length := by
        simp [likeReactors, hl]
      rw [hlen] at h
      rw [ih _ h]
      simp [likeReactors, hl]

/-- C6 counterexample: in the `part_000` revision, a reactor liking twice
(timestamps 10 then 20) within the processed notifications ends with
`fidLastLikeTime = 10`, the first sighting, although 20 is among its
event timestamps — the recorded value is not the maximum. -/
theorem c6_counterexample :
    aget ((processNotifsOld 1000 [⟨"like", [⟨1, "a", 10⟩, ⟨1, "a", 20⟩]⟩]
        emptyScan false).1.fidLastLikeTime) 1 = 10 ∧
    (20 : Nat) ∈ ((likeReactors [⟨"like", [⟨1, "a", 10⟩, ⟨1, "a", 20⟩]⟩]).filter
      (fun r => decide (r.fid = 1))).map (fun r => r.timestampSec) ∧
    ¬ (20 : Nat) ≤ 10 := by
  refine ⟨rfl, ?_, by omega⟩
  simp [likeReactors]

/-- C6 (amended): over the notifications processed by one scan that never
reaches the `maxResults` cutoff, a reactor with K like-type reaction
events gets `fidLikes[fid] = K` exactly and keeps the username of its
first sighting, in both revisions of the loop; `fidLastLikeTime[fid]` is
the maximum of the reactor's event timestamps in the `src/index.js`
revision, but in the `part_000` revision it is the timestamp of the
first sighting (it is never updated afterwards). -/
theorem c6_tally_exact (M : Nat) (ns : List Notification) (f : Nat)
    (h : (likeReactors ns).length < M) :
    aget ((processNotifs M ns emptyScan false).1.fidLikes) f =
      ((likeReactors ns).filter (fun r => decide (r.fid = f))).length ∧
    alookup ((processNotifs M ns emptyScan false).1.fidNames) f =
      ((likeReactors ns).find? (fun r => decide (r.fid = f))).map (fun r => r.username) ∧
    (((likeReactors ns).filter (fun r => decide (r.fid = f))) ≠ [] →
      ∃ tmax, aget ((processNotifs M ns emptyScan false).1.fidLastLikeTime) f = tmax ∧
        tmax ∈ ((likeReactors ns).filter (fun r => decide (r.fid = f))).map
          (fun r => r.timestampSec) ∧
        ∀ t ∈ ((likeReactors ns).filter (fun r => decide (r.fid = f))).map
          (fun r => r.timestampSec), t ≤ tmax) ∧
    (∀ r0, (likeReactors ns).find? (fun r => decide (r.fid = f)) = some r0 →
      aget ((processNotifsOld M ns emptyScan false).1.fidLastLikeTime) f = r0.timestampSec) := by
  have hcnt : emptyScan.count + (likeReactors ns).length < M := by
    simp only [emptyScan]
    omega
  have hnew := processNotifs_no_cutoff M ns emptyScan hcnt
  have hold := processNotifsOld_no_cutoff M ns emptyScan hcnt
  have hempty_likes : ∀ g : Nat, aget (emptyScan.fidLikes) g = 0 := by
    intro g
    rfl
  refine ⟨?_, ?_, ?_, ?_⟩
  · rw [hnew]
    rw [foldl_record_likes]
    simp [hempty_likes]
  · rw [hnew]
    rw [foldl_record_names_unseen _ _ _ (hempty_likes f)]
    cases hfind : (likeReactors ns).find? (fun r => decide (r.fid = f)) <;> rfl
  · intro hne
    rw [hnew]
    have hzero : aget (emptyScan.fidLastLikeTime) f = 0 := rfl
    rw [foldl_record_time, hzero]
    refine ⟨_, rfl, ?_, ?_⟩
    · have hmem := foldl_max_mem
        (((likeReactors ns).filter (fun r => decide (r.fid = f))).map (fun r => r.timestampSec))
        0
      rcases hmem with hm | hm
      · obtain ⟨y, ys, hys⟩ : ∃ y ys,
            ((likeReactors ns).filter (fun r => decide (r.fid = f))).map
              (fun r => r.timestampSec) = y :: ys := by
          cases hc : ((likeReactors ns).filter (fun r => decide (r.fid = f))).map
              (fun r => r.timestampSec) with
          | nil =>
            rw [List.map_eq_nil_iff] at hc
            exact absurd hc hne
          | cons y ys => exact ⟨y, ys, rfl⟩
        have hy := foldl_max_ge_mem
          (((likeReactors ns).filter (fun r => decide (r.fid = f))).map (fun r => r.timestampSec))
          0 y (by rw [hys]; exact List.mem_cons_self _ _)
        rw [hm] at hy
        have hy0 : y = 0 := Nat.le_zero.mp hy
        rw [hm, hys, ← hy0]
        exact List.mem_cons_self _ _
      · exact hm
    · intro t ht
      exact foldl_max_ge_mem _ _ t ht
  · intro r0 hfind
    rw [hold]
    rw [foldl_recordOld_time_unseen _ _ _ (hempty_likes f), hfind]

/-- Witness for C6 at a concrete one-like feed. -/
theorem c6_witness :
    aget ((processNotifs 10 [⟨"like", [⟨1, "a", 5⟩]⟩] emptyScan false).1.fidLikes) 1 =
      ((likeReactors [⟨"like", [⟨1, "a", 5⟩]⟩]).filter (fun r => decide (r.fid = 1))).length :=
  (c6_tally_exact 10 [⟨"like", [⟨1, "a", 5⟩]⟩] 1 (by decide)).1

end Farcoin

namespace Farcoin

/-! ### The aggregation-state invariant (for C10) -/

/-- The implicit invariant of the aggregation state: the distinct count
matches the number of recorded fids, the three maps share one key set
(without duplicates), and every recorded like count is at least 1. -/
def Inv (s : ScanResult) : Prop :=
  (keysOf s.fidLikes).Nodup ∧
  s.count = s.fidLikes.length ∧
  keysOf s.fidNames = keysOf s.fidLikes ∧
  keysOf s.fidLastLikeTime = keysOf s.fidLikes ∧
  ∀ kv ∈ s.fidLikes, 1 ≤ kv.2

instance instDecidableInv (s : ScanResult) : Decidable (Inv s) := by
  unfold Inv
  infer_instance

theorem recordReactor_fields_first (s : ScanResult) (r : Reactor)
    (h0 : aget s.fidLikes r.fid = 0) :
    (recordReactor s r).count = s.count + 1 ∧
    (recordReactor s r).fidLikes = aset s.fidLikes r.fid 1 ∧
    (recordReactor s r).fidNames = aset s.fidNames r.fid r.username ∧
    (recordReactor s r).fidLastLikeTime =
      aset s.fidLastLikeTime r.fid (max (aget s.fidLastLikeTime r.fid) r.timestampSec) := by
  refine ⟨?_, ?_, ?_, ?_⟩ <;> simp [recordReactor, h0]

theorem recordReactor_fields_next (s : ScanResult) (r : Reactor)
    (h0 : ¬ aget s.fidLikes r.fid = 0) :
    (recordReactor s r).count = s.count ∧
    (recordReactor s r).fidLikes = aset s.fidLikes r.fid (aget s.fidLikes r.fid + 1) ∧
    (recordReactor s r).fidNames = s.fidNames ∧
    (recordReactor s r).fidLastLikeTime =
      aset s.fidLastLikeTime r.fid (max (aget s.fidLastLikeTime r.fid) r.timestampSec) := by
  refine ⟨?_, ?_, ?_, ?_⟩ <;> simp [recordReactor, h0]

theorem recordReactor_inv (r : Reactor) {s : ScanResult} (h : Inv s) :
    Inv (recordReactor s r) := by
  obtain ⟨hnd, hcnt, hnm, htm, hval⟩ := h
  by_cases h0 : aget s.fidLikes r.fid = 0
  · have hnotmem : r.fid ∉ keysOf s.fidLikes := by
      rw [← alookup_eq_none_iff]
      cases hl : alookup s.fidLikes r.fid with
      | none => rfl
      | some v =>
        have hv := hval _ (alookup_mem hl)
        simp only [aget, hl, Option.getD_some] at h0
        omega
    obtain ⟨hc, hlk, hn, ht⟩ := recordReactor_fields_first s r h0
    have hkl : keysOf (recordReactor s r).fidLikes = keysOf s.fidLikes ++ [r.fid] := by
      rw [hlk]
      exact keysOf_aset_not_mem _ _ _ hnotmem
    have hlen : (recordReactor s r).fidLikes.length = s.fidLikes.length + 1 := by
      rw [length_eq_length_keysOf, hkl, List.length_append,
        ← length_eq_length_keysOf]
      rfl
    refine ⟨?_, ?_, ?_, ?_, ?_⟩
    · rw [hkl]
      simp [List.nodup_append, hnd, hnotmem]
    · rw [hc, hlen, hcnt]
    · rw [hn, hkl, keysOf_aset_not_mem _ _ _ (by rw [hnm]; exact hnotmem), hnm]
    · rw [ht, hkl, keysOf_aset_not_mem _ _ _ (by rw [htm]; exact hnotmem), htm]
    · intro kv hkv
      rw [hlk] at hkv
      rcases mem_aset hkv with h1 | h1
      · rw [h1]
      · exact hval _ h1
  · have hsome : ∃ v, alookup s.fidLikes r.fid = some v := by
      cases hl : alookup s.fidLikes r.fid with
      | none => exact absurd (by simp [aget, hl]) h0
      | some v => exact ⟨v, rfl⟩
    obtain ⟨v, hl⟩ := hsome
    have hmem : r.fid ∈ keysOf s.fidLikes := mem_keysOf_of_alookup hl
    obtain ⟨hc, hlk, hn, ht⟩ := recordReactor_fields_next s r h0
    have hkl : keysOf (recordReactor s r).fidLikes = keysOf s.fidLikes := by
      rw [hlk]
      exact keysOf_aset_mem _ _ _ hmem
    have hlen : (recordReactor s r).fidLikes.length = s.fidLikes.length := by
      rw [length_eq_length_keysOf, hkl, ← length_eq_length_keysOf]
    refine ⟨?_, ?_, ?_, ?_, ?_⟩
    · rw [hkl]
      exact hnd
    · rw [hc, hlen, hcnt]
    · rw [hn, hnm, hkl]
    · rw [ht, hkl, keysOf_aset_mem _ _ _ (by rw [htm]; exact hmem), htm]
    · intro kv hkv
      rw [hlk] at hkv
      rcases mem_aset hkv with h1 | h1
      · rw [h1]
        simp
      · exact hval _ h1

theorem processReactors_inv (M : Nat) (rs : List Reactor) :
    ∀ s : ScanResult, Inv s → Inv (processReactors M s rs).1 := by
  induction rs with
  | nil =>
    intro s h
    exact h
  | cons r rest ih =>
    intro s h
    simp only [processReactors]
    split
    · exact recordReactor_inv r h
    · exact ih _ (recordReactor_inv r h)

theorem processNotifs_inv (M : Nat) (ns : List Notification) :
    ∀ (s : ScanResult) (c : Bool), Inv s → Inv (processNotifs M ns s c).1 := by
  induction ns with
  | nil =>
    intro s c h
    exact h
  | cons n rest ih =>
    intro s c h
    by_cases hl : n.reactionType = "like"
    · simp only [processNotifs, if_pos hl]
      exact ih _ _ (processReactors_inv M n.reactors s h)
    · simp only [processNotifs, if_neg hl]
      exact ih _ _ h

theorem getReactionsToUser_inv (M : Nat) (feed : List Page) :
    ∀ (s : ScanResult) (d : Nat), Inv s → Inv (getReactionsToUser M feed s d).1 := by
  induction feed with
  | nil =>
    intro s d h
    rw [getReactionsToUser_nil]
    exact h
  | cons page rest ih =>
    intro s d h
    rw [getReactionsToUser_cons]
    split
    · exact processNotifs_inv M page.notifications s false h
    · exact ih _ _ (processNotifs_inv M page.notifications s false h)

theorem insertAsc_length (a : Nat) (l : List Nat) :
    (insertAsc a l).length = l.length + 1 := by
  induction l with
  | nil => rfl
  | cons b rest ih =>
    simp only [insertAsc]
    split
    · rfl
    · simp only [List.length_cons, ih]

theorem objKeys_length {α : Type} (l : List (Nat × α)) :
    (objKeys l).length = (keysOf l).length := by
  rw [objKeys]
  induction keysOf l with
  | nil => rfl
  | cons a rest ih =>
    simp only [List.foldr_cons, insertAsc_length, ih, List.length_cons]

theorem insertByTime_length (times : List (Nat × Nat)) (a : Nat) (l : List Nat) :
    (insertByTime times a l).length = l.length + 1 := by
  induction l with
  | nil => rfl
  | cons b rest ih =>
    simp only [insertByTime]
    split
    · rfl
    · simp only [List.length_cons, ih]

theorem sortFIDs_length (likes times : List (Nat × Nat)) :
    (sortFIDs likes times).length = likes.length := by
  rw [sortFIDs]
  have h : ∀ l : List Nat, (l.foldr (insertByTime times) []).length = l.length := by
    intro l
    induction l with
    | nil => rfl
    | cons a rest ih =>
      simp only [List.foldr_cons, insertByTime_length, ih, List.length_cons]
  rw [h, objKeys_length, ← length_eq_length_keysOf]

theorem scanFIDs_length {s : ScanResult} (h : Inv s) : (scanFIDs s).length = s.count := by
  rw [scanFIDs, sortFIDs_length, h.2.1]

/-- C10: invariant of the aggregation state — it holds of the initial
accumulator, is preserved by every single reactor-recording step (hence
after any prefix of aggregation steps), by whole notification pages, and
by the full paginated scan: `count` equals the number of distinct
recorded fids, the key sets of `fidLikes`, `fidNames` and
`fidLastLikeTime` coincide (duplicate-free), every recorded like count is
at least 1, and consequently the `FIDs` array built by `/scan` has length
`count`. -/
theorem c10_invariant :
    Inv emptyScan ∧
    (∀ (s : ScanResult) (r : Reactor), Inv s → Inv (recordReactor s r)) ∧
    (∀ (M : Nat) (ns : List Notification) (s : ScanResult) (c : Bool),
      Inv s → Inv (processNotifs M ns s c).1) ∧
    (∀ (M : Nat) (feed : List Page) (s : ScanResult) (d : Nat),
      Inv s → Inv (getReactionsToUser M feed s d).1) ∧
    (∀ s : ScanResult, Inv s → (scanFIDs s).length = s.count) :=
  ⟨by decide,
   fun _ r h => recordReactor_inv r h,
   fun M ns s c h => processNotifs_inv M ns s c h,
   fun M feed s d h => getReactionsToUser_inv M feed s d h,
   fun _ h => scanFIDs_length h⟩

/-- Witness for C10 at a concrete aggregation state. -/
theorem c10_witness :
    (scanFIDs ⟨1, [(3, 2)], [(3, "a")], [(3, 50)]⟩).length =
      (⟨1, [(3, 2)], [(3, "a")], [(3, 50)]⟩ : ScanResult).count :=
  c10_invariant.2.2.2.2 ⟨1, [(3, 2)], [(3, "a")], [(3, 50)]⟩ (by decide)

end Farcoin

namespace Farcoin

/-! ### Sortedness of the `/scan` FIDs list (for C8) -/

theorem mem_insertByTime {times : List (Nat × Nat)} {a x : Nat} {l : List Nat}
    (h : x ∈ insertByTime times a l) : x = a ∨ x ∈ l := by
  induction l with
  | nil => simpa [insertByTime] using h
  | cons b rest ih =>
    simp only [insertByTime] at h
    split at h
    · rcases List.mem_cons.mp h with h1 | h1
      · exact Or.inl h1
      · exact Or.inr h1
    · rcases List.mem_cons.mp h with h1 | h1
      · exact Or.inr (h1 ▸ List.mem_cons_self _ _)
      · rcases ih h1 with h2 | h2
        · exact Or.inl h2
        · exact Or.inr (List.mem_cons_of_mem _ h2)

theorem insertByTime_sorted (times : List (Nat × Nat)) (a : Nat) (l : List Nat) :
    l.Pairwise (fun x y => aget times y ≤ aget times x) →
      (insertByTime times a l).Pairwise (fun x y => aget times y ≤ aget times x) := by
  induction l with
  | nil =>
    intro _
    simp [insertByTime]
  | cons b rest ih =>
    intro h
    obtain ⟨hb, hrest⟩ := List.pairwise_cons.mp h
    simp only [insertByTime]
    split
    · rename_i hab
      refine List.pairwise_cons.mpr ⟨?_, h⟩
      intro y hy
      rcases List.mem_cons.mp hy with h1 | h1
      · rw [h1]
        omega
      · have := hb y h1
        omega
    · rename_i hab
      refine List.pairwise_cons.mpr ⟨?_, ih hrest⟩
      intro y hy
      rcases mem_insertByTime hy with h1 | h1
      · rw [h1]
        omega
      · exact hb y h1

theorem sortFIDs_sorted (likes times : List (Nat × Nat)) :
    (sortFIDs likes times).Pairwise (fun x y => aget times y ≤ aget times x) := by
  rw [sortFIDs]
  induction objKeys likes with
  | nil => simp
  | cons a rest ih =>
    simp only [List.foldr_cons]
    exact insertByTime_sorted times a _ ih

/-- C8: the `FIDs` list of a `/scan` result is sorted by
`fidLastLikeTime` in descending order — for every pair of positions
`i < j` in the returned array, the time of the entry at `i` is at least
the time of the entry at `j` — and the ordering (ties included) is
deterministic: it is a function of `fidLikes` and `fidLastLikeTime`
alone. -/
theorem c8_fids_descending (feed : List Page) (i j : Nat) (hij : i < j)
    (hj : j < ((scanHandler feed).2).length) :
    timeOf (scanHandler feed).1 (((scanHandler feed).2).get ⟨j, hj⟩) ≤
      timeOf (scanHandler feed).1
        (((scanHandler feed).2).get ⟨i, Nat.lt_trans hij hj⟩) ∧
    (∀ s s' : ScanResult, s.fidLikes = s'.fidLikes →
      s.fidLastLikeTime = s'.fidLastLikeTime → scanFIDs s = scanFIDs s') := by
  constructor
  · have hsorted : List.Sorted
        (fun x y => aget ((scanHandler feed).1).fidLastLikeTime y ≤
          aget ((scanHandler feed).1).fidLastLikeTime x) ((scanHandler feed).2) :=
      sortFIDs_sorted ((scanHandler feed).1).fidLikes ((scanHandler feed).1).fidLastLikeTime
    exact hsorted.rel_get_of_lt (Fin.mk_lt_mk.mpr hij)
  · intro s s' h1 h2
    simp only [scanFIDs, h1, h2]

/-- Witness for C8: a feed producing two reactors, positions 0 and 1 of
the resulting FIDs list are in descending time order. -/
theorem c8_witness :
    timeOf (scanHandler [⟨[⟨"like", [⟨1, "a", 10⟩, ⟨2, "b", 20⟩]⟩], false⟩]).1
        (((scanHandler [⟨[⟨"like", [⟨1, "a", 10⟩, ⟨2, "b", 20⟩]⟩], false⟩]).2).get
          ⟨1, by decide⟩) ≤
      timeOf (scanHandler [⟨[⟨"like", [⟨1, "a", 10⟩, ⟨2, "b", 20⟩]⟩], false⟩]).1
        (((scanHandler [⟨[⟨"like", [⟨1, "a", 10⟩, ⟨2, "b", 20⟩]⟩], false⟩]).2).get
          ⟨0, by decide⟩) :=
  (c8_fids_descending [⟨[⟨"like", [⟨1, "a", 10⟩, ⟨2, "b", 20⟩]⟩], false⟩] 0 1
    (by decide) (by decide)).1

end Farcoin
